import Mathlib

/-!
Verification of the segment-statistics reduction in
`deepdecoder/mask_loss.py` (repository `berleon/keras_models`).

Pixel intensities and label codes (float32 in the source) are modelled as
exact rationals, so every "within floating tolerance" statement is proved
as an exact equality.  Tensors are modelled as total functions together
with an explicit shape record; entries outside the recorded extent are
never inspected by the theorems.

The CUDA kernels referenced by `SplitMask.make_thunk` and
`SplitMaskGrad.make_thunk` live in `cuda/mask_split.cu`, which is not part
of the repository sources; those two kernels are modelled from the
specification (and are marked as such below).  Everything else is
translated directly from `mask_loss.py`.
-/

namespace MaskLoss

/-- Shape of a rank-4 tensor, layout (batch, channel, height, width). -/
structure Shape4 where
  n : ℕ
  c : ℕ
  h : ℕ
  w : ℕ
deriving DecidableEq

/-- A rank-4 tensor of rationals: a shape plus a total valuation function
indexed (batch, channel, y, x). -/
structure Tensor4 where
  shape : Shape4
  val : ℕ → ℕ → ℕ → ℕ → ℚ

/-- A rank-5 volume, layout (class, batch, channel, height, width), as
produced by the forward reduction. -/
structure Vol5 where
  m : ℕ
  n : ℕ
  c : ℕ
  h : ℕ
  w : ℕ
  val : ℕ → ℕ → ℕ → ℕ → ℕ → ℚ

/-- Sum of a rank-5 volume over its last three axes (channel, y, x), the
reduction `x.sum(axis=[2,3,4])` applied throughout `mask_loss.py`. -/
def Vol5.spatialSum (v : Vol5) (i b : ℕ) : ℚ :=
  ∑ c in Finset.range v.c, ∑ y in Finset.range v.h, ∑ x in Finset.range v.w,
    v.val i b c y x

/-- `shape_ok` from `mask_loss.py`: height equals width, height is even,
and the channel extent is 1. -/
def shape_ok (shp : Shape4) : Bool :=
  shp.h == shp.w && shp.h % 2 == 0 && shp.c == 1

/-- The boolean mask `T.eq(mask_idx, enum_val)` of `theano_split_mask`,
true at the in-bounds positions of `mask_idx` whose label value equals the
enumeration value. -/
def maskEq (mask_idx : Tensor4) (enum_val : ℚ) (b c y x : ℕ) : Bool :=
  decide (b < mask_idx.shape.n) && decide (c < mask_idx.shape.c) &&
    decide (y < mask_idx.shape.h) && decide (x < mask_idx.shape.w) &&
    (mask_idx.val b c y x == enum_val)

/-- The per-class pixel count of `theano_split_mask`:
`idx.sum(axis=(1, 2, 3))` for `idx = T.eq(mask_idx, enum_val)`, the number
of pixels of image `b` of the label map whose value equals class `i` of
the enumeration. -/
def theano_count (mask : List ℚ) (mask_idx : Tensor4) (i b : ℕ) : ℚ :=
  ∑ c in Finset.range mask_idx.shape.c, ∑ y in Finset.range mask_idx.shape.h,
    ∑ x in Finset.range mask_idx.shape.w,
      if maskEq mask_idx (mask.getD i 0) b c y x then 1 else 0

/-- `theano_split_mask` from `mask_loss.py`: for each enumeration class it
materialises the boolean selection `T.eq(mask_idx, enum_val)`, copies the
selected image pixels into a zero volume (`T.set_subtensor` on
`T.zeros_like(image)`), stacks the per-class volumes, and returns the
stack, its elementwise square, and the per-class counts reshaped to
`(len(MASK), batch, 1, 1, 1)`. -/
def theano_split_mask (mask : List ℚ) (mask_idx image : Tensor4) :
    Vol5 × Vol5 × Vol5 :=
  let m := mask.length
  let splitted : Vol5 :=
    ⟨m, image.shape.n, image.shape.c, image.shape.h, image.shape.w,
      fun i b c y x =>
        if maskEq mask_idx (mask.getD i 0) b c y x then image.val b c y x
        else 0⟩
  let squared : Vol5 :=
    ⟨m, image.shape.n, image.shape.c, image.shape.h, image.shape.w,
      fun i b c y x => (splitted.val i b c y x) ^ 2⟩
  let countv : Vol5 :=
    ⟨m, image.shape.n, 1, 1, 1, fun i b _ _ _ => theano_count mask mask_idx i b⟩
  (splitted, squared, countv)

/-- `mean_by_count` from `mask_loss.py`:
`T.switch(T.eq(count, 0), T.zeros_like(count), x.sum(axis) / count)`. -/
def mean_by_count (x : Vol5) (count : ℕ → ℕ → ℚ) (i b : ℕ) : ℚ :=
  if count i b = 0 then 0 else x.spatialSum i b / count i b

/-- `split_to_mean_var` from `mask_loss.py`: collapses the spatial axes of
the count volume, then produces per-slot mean and variance via
`mean_by_count`, with `var = mean_by_count(pow, count_sum) - mean ^ 2`. -/
def split_to_mean_var (sumv powv countv : Vol5) :
    (ℕ → ℕ → ℚ) × (ℕ → ℕ → ℚ) × (ℕ → ℕ → ℚ) :=
  let count_sum := fun i b => countv.spatialSum i b
  let mean := mean_by_count sumv count_sum
  let var := fun i b => mean_by_count powv count_sum i b - (mean i b) ^ 2
  (mean, var, count_sum)

/-- Modelled from the spec: the Label Classifier of section 4.1 (realised
inside the missing CUDA source `cuda/mask_split.cu`): it maps a label
value to the index of the first enumeration entry carrying that value,
and is undefined (`none`) for values outside the enumeration. -/
def classify (mask : List ℚ) (v : ℚ) : Option ℕ :=
  match mask with
  | [] => none
  | u :: rest => if u = v then some 0 else (classify rest v).map (· + 1)

/-- Modelled from the spec: the CUDA kernel `image_mask_split` of
`cuda/mask_split.cu` is not in the repository sources.  Per sections 3
and 4.2 of the spec it fills a staging volume of shape
`(3 * |classes|, batch, 1, s, s)` holding three stacked blocks: the
per-pixel masked image, the per-pixel squared masked image, and the
per-pixel class-membership indicator.  The batch extent is the minimum of
the two input batch extents and `s` is taken from the label map
(`s = mask_idx.shape[3]` in `SplitMask.make_thunk`). -/
def image_mask_split (mask : List ℚ) (mask_idx image : Tensor4) : Vol5 :=
  let m := mask.length
  let bs := min mask_idx.shape.n image.shape.n
  let s := mask_idx.shape.w
  ⟨3 * m, bs, 1, s, s, fun j b c y x =>
    if b < bs ∧ c = 0 ∧ y < s ∧ x < s then
      match classify mask (mask_idx.val b 0 y x) with
      | some k =>
        if j = k then image.val b 0 y x
        else if j = m + k then (image.val b 0 y x) ^ 2
        else if j = 2 * m + k then 1
        else 0
      | none => 0
    else 0⟩

/-- The thunk of `SplitMask.make_thunk`: it allocates the staging volume
of shape `(3 * len(MASK), batch_size, 1, s, s)` with
`batch_size = min(mask_idx.shape[0], image.shape[0])`, runs the
`image_mask_split` kernel, and returns the three class-axis slices
`sdata[:m]`, `sdata[m:2m]`, `sdata[2m:]`. -/
def SplitMask_thunk (mask : List ℚ) (mask_idx image : Tensor4) :
    Vol5 × Vol5 × Vol5 :=
  let sdata := image_mask_split mask mask_idx image
  let m := mask.length
  (⟨m, sdata.n, sdata.c, sdata.h, sdata.w,
     fun i b c y x => sdata.val i b c y x⟩,
   ⟨m, sdata.n, sdata.c, sdata.h, sdata.w,
     fun i b c y x => sdata.val (m + i) b c y x⟩,
   ⟨m, sdata.n, sdata.c, sdata.h, sdata.w,
     fun i b c y x => sdata.val (2 * m + i) b c y x⟩)

/-- Modelled from the spec: the CUDA kernels `image_mask_split_grad_sum_pow`,
`image_mask_split_grad_sum` and `image_mask_split_grad_pow` of
`cuda/mask_split.cu` are not in the repository sources.  Per section 4.3
of the spec, for each pixel `(b, y, x)` of class `c` the kernel
accumulates into the zero-initialised gradient buffer
`gradSum[c,b]` when the sum gradient is connected plus
`2 * image[b,0,y,x] * gradSumOfSquares[c,b]` when the pow gradient is
connected.  The buffer shape `(batch_size, 1, s, s)` with
`batch_size = min(mask_idx.shape[0], image.shape[0])` and
`s = mask_idx.shape[3]` is taken from `SplitMaskGrad.make_thunk`. -/
def image_mask_split_grad (mask : List ℚ) (sum_connected pow_connected : Bool)
    (mask_idx image : Tensor4) (og_sum og_pow : ℕ → ℕ → ℚ) : Tensor4 :=
  let bs := min mask_idx.shape.n image.shape.n
  let s := mask_idx.shape.w
  ⟨⟨bs, 1, s, s⟩, fun b c y x =>
    if b < bs ∧ c = 0 ∧ y < s ∧ x < s then
      match classify mask (mask_idx.val b 0 y x) with
      | some k =>
        (if sum_connected then og_sum k b else 0) +
          (if pow_connected then 2 * image.val b 0 y x * og_pow k b else 0)
      | none => 0
    else 0⟩

/-- The thunk of `SplitMaskGrad.make_thunk`: it dispatches on the
connection mode recorded at construction time ("sum" and/or "pow" in
`self.connected`) and launches the corresponding specialised kernel on a
zero-initialised gradient buffer. -/
def SplitMaskGrad_thunk (mask : List ℚ) (connected : List String)
    (mask_idx image : Tensor4) (og_sum og_pow : ℕ → ℕ → ℚ) : Tensor4 :=
  if r"sum" ∈ connected ∧ r"pow" ∈ connected then
    image_mask_split_grad mask true true mask_idx image og_sum og_pow
  else if r"sum" ∈ connected then
    image_mask_split_grad mask true false mask_idx image og_sum og_pow
  else if r"pow" ∈ connected then
    image_mask_split_grad mask false true mask_idx image og_sum og_pow
  else
    ⟨⟨min mask_idx.shape.n image.shape.n, 1, mask_idx.shape.w,
       mask_idx.shape.w⟩, fun _ _ _ _ => 0⟩

/-- `SplitMaskGrad.__init__` from `mask_loss.py`: `connected` defaults to
`["sum", "pow"]`; the kernel name is selected once from the membership of
"sum" and "pow" in `connected`, and a `ValueError` is raised when neither
is present. -/
def SplitMaskGrad_init (connected : Option (List String)) :
    Except String String :=
  let conn := connected.getD [r"sum", r"pow"]
  if r"sum" ∈ conn ∧ r"pow" ∈ conn then
    Except.ok (r"image_mask_split_grad_sum_pow")
  else if r"sum" ∈ conn then Except.ok (r"image_mask_split_grad_sum")
  else if r"pow" ∈ conn then Except.ok (r"image_mask_split_grad_pow")
  else Except.error (r"At least sum or pow gradient must be provided")

/-- `SplitMaskGrad.make_node` from `mask_loss.py`: raises a `ValueError`
when both upstream gradients are of `DisconnectedType`, and otherwise
appends each structurally present gradient to the input list. -/
def SplitMaskGrad_make_node (og_sum_disconnected og_pow_disconnected : Bool) :
    Except String (List String) :=
  if og_sum_disconnected && og_pow_disconnected then
    Except.error (r"At least sum or pow gradient must be provided")
  else
    Except.ok ((if !og_sum_disconnected then [r"og_sum"] else []) ++
      (if !og_pow_disconnected then [r"og_pow"] else []))

/-- The dtype assertions of `SplitMask.make_node`:
`assert mask_idx.dtype == "float32"` and the same for `image`. -/
def SplitMask_node_checks (mask_idx_dtype image_dtype : String) : Bool :=
  mask_idx_dtype == r"float32" && image_dtype == r"float32"

/-- The assertions executed by the thunk of `SplitMask.make_thunk`:
`assert shape_ok(mask_idx.shape)`, `assert shape_ok(image.shape)`, and
`assert mask_idx.shape[2] == mask_idx.shape[3]`. -/
def SplitMask_thunk_checks (mask_idx_shape image_shape : Shape4) : Bool :=
  shape_ok mask_idx_shape && shape_ok image_shape &&
    (mask_idx_shape.h == mask_idx_shape.w)

/-- All assertions guarding one forward call: the dtype assertions of
`SplitMask.make_node` followed by the shape assertions of the thunk. -/
def SplitMask_checks (mask_idx_shape image_shape : Shape4)
    (mask_idx_dtype image_dtype : String) : Bool :=
  SplitMask_node_checks mask_idx_dtype image_dtype &&
    SplitMask_thunk_checks mask_idx_shape image_shape

/-- `T.zeros_like`: a tensor of the same shape with every entry zero. -/
def zeros_like (t : Tensor4) : Tensor4 :=
  ⟨t.shape, fun _ _ _ _ => 0⟩

/-- `SplitMask.grad` from `mask_loss.py`: collects the structurally
connected output gradients into `connected`, and returns the pair
`[T.zeros_like(inputs[0]), SplitMaskGrad(connected)(*grad_ins)]`. -/
def SplitMask_grad (mask : List ℚ) (mask_idx image : Tensor4)
    (og_sum_disconnected og_pow_disconnected : Bool)
    (og_sum og_pow : ℕ → ℕ → ℚ) : Tensor4 × Tensor4 :=
  let connected := (if !og_sum_disconnected then [r"sum"] else []) ++
    (if !og_pow_disconnected then [r"pow"] else [])
  (zeros_like mask_idx,
   SplitMaskGrad_thunk mask connected mask_idx image og_sum og_pow)

/-- Replace the single pixel (b, 0, y, x) of an image by the value v,
keeping the shape; used to state the analytic-gradient property. -/
def set_pixel (image : Tensor4) (b y x : ℕ) (v : ℚ) : Tensor4 :=
  ⟨image.shape, fun b2 c2 y2 x2 =>
    if b2 = b ∧ c2 = 0 ∧ y2 = y ∧ x2 = x then v else image.val b2 c2 y2 x2⟩

/-- Concrete two-class enumeration used by the spec scenario: class A has
label value 0 and class B has label value 1. -/
def exMask : List ℚ := [0, 1]

/-- Concrete label map of shape (1, 1, 4, 4): class A (value 0) occupies
the top-left 2x2 block, class B (value 1) the rest. -/
def exLabel : Tensor4 :=
  ⟨⟨1, 1, 4, 4⟩, fun _ _ y x => if y < 2 ∧ x < 2 then 0 else 1⟩

/-- Concrete image of shape (1, 1, 4, 4): value 1 on the class-A cells and
value 3 on the class-B cells. -/
def exImage : Tensor4 :=
  ⟨⟨1, 1, 4, 4⟩, fun _ _ y x => if y < 2 ∧ x < 2 then 1 else 3⟩

/-- Unfolding of the boolean mask into its five defining conditions. -/
theorem maskEq_iff (mask_idx : Tensor4) (enum_val : ℚ) (b c y x : ℕ) :
    maskEq mask_idx enum_val b c y x = true ↔
      b < mask_idx.shape.n ∧ c < mask_idx.shape.c ∧ y < mask_idx.shape.h ∧
        x < mask_idx.shape.w ∧ mask_idx.val b c y x = enum_val := by
  simp [maskEq, and_assoc]

/-- Any index returned by the classifier is in range and carries the
looked-up label value. -/
theorem classify_some {mask : List ℚ} {v : ℚ} {k : ℕ}
    (h : classify mask v = some k) : k < mask.length ∧ mask.getD k 0 = v := by
  induction mask generalizing k with
  | nil => simp [classify] at h
  | cons u rest ih =>
    by_cases hu : u = v
    · simp [classify, hu] at h
      subst h
      simpa using hu
    · simp [classify, hu, Option.map_eq_some'] at h
      obtain ⟨k0, hk0, rfl⟩ := h
      obtain ⟨hlt, hval⟩ := ih hk0
      exact ⟨by simpa using hlt, by simpa using hval⟩

/-- On a duplicate-free enumeration the classifier recovers the index of
each enumeration value. -/
theorem classify_getD {mask : List ℚ} (hnd : mask.Nodup) {k : ℕ}
    (hk : k < mask.length) : classify mask (mask.getD k 0) = some k := by
  induction mask generalizing k with
  | nil => simp at hk
  | cons u rest ih =>
    obtain ⟨hu, hrest⟩ := List.nodup_cons.mp hnd
    cases k with
    | zero => simp [classify]
    | succ k =>
      have hk2 : k < rest.length := by simpa using hk
      have hmem : rest.getD k 0 ∈ rest := by
        rw [List.getD_eq_getElem rest 0 hk2]
        exact List.getElem_mem hk2
      have hne : u ≠ rest.getD k 0 := fun h => hu (h ▸ hmem)
      rw [List.getD_cons_succ]
      simp only [classify]
      rw [if_neg hne, ih hrest hk2]
      rfl

/-- On a duplicate-free enumeration, classification to index i is
equivalent to equality with the i-th enumeration value. -/
theorem classify_iff {mask : List ℚ} (hnd : mask.Nodup) {i : ℕ}
    (hi : i < mask.length) (v : ℚ) :
    classify mask v = some i ↔ v = mask.getD i 0 :=
  ⟨fun h => ((classify_some h).2).symm, fun h => h ▸ classify_getD hnd hi⟩

/-- Every enumeration member is classified to some index. -/
theorem classify_mem {mask : List ℚ} {v : ℚ} (h : v ∈ mask) :
    ∃ k, classify mask v = some k := by
  induction mask with
  | nil => simp at h
  | cons u rest ih =>
    by_cases hu : u = v
    · exact ⟨0, by simp [classify, hu]⟩
    · obtain ⟨k, hk⟩ := ih (by
        rcases List.mem_cons.mp h with h1 | h1
        · exact absurd h1.symm hu
        · exact h1)
      exact ⟨k + 1, by simp [classify, hu, hk]⟩

/-- A range sum changes by exactly the change of its single modified
term. -/
theorem sum_sub_single (n : ℕ) (f g : ℕ → ℚ) (i : ℕ) (hi : i < n)
    (h : ∀ j, j < n → j ≠ i → f j = g j) :
    (∑ j in Finset.range n, f j) = (∑ j in Finset.range n, g j) + (f i - g i) := by
  have hz : ∀ j ∈ Finset.range n, j ≠ i → f j - g j = 0 := by
    intro j hj hne
    rw [h j (Finset.mem_range.mp hj) hne]
    ring
  have hs : (∑ j in Finset.range n, (f j - g j)) = f i - g i :=
    Finset.sum_eq_single_of_mem i (Finset.mem_range.mpr hi) hz
  have hd : (∑ j in Finset.range n, (f j - g j)) =
      (∑ j in Finset.range n, f j) - (∑ j in Finset.range n, g j) :=
    Finset.sum_sub_distrib
  linarith

/-- A double range sum changes by exactly the change of its single
modified term. -/
theorem sum2_sub_single (H W : ℕ) (f g : ℕ → ℕ → ℚ) (y x : ℕ)
    (hy : y < H) (hx : x < W)
    (h : ∀ y2 x2, y2 < H → x2 < W → ¬(y2 = y ∧ x2 = x) → f y2 x2 = g y2 x2) :
    (∑ y2 in Finset.range H, ∑ x2 in Finset.range W, f y2 x2)
      = (∑ y2 in Finset.range H, ∑ x2 in Finset.range W, g y2 x2)
        + (f y x - g y x) := by
  have hrow : ∀ y2, y2 < H → y2 ≠ y →
      (∑ x2 in Finset.range W, f y2 x2) = (∑ x2 in Finset.range W, g y2 x2) := by
    intro y2 hy2 hne
    refine Finset.sum_congr rfl fun x2 hx2 => ?_
    exact h y2 x2 hy2 (Finset.mem_range.mp hx2) (by tauto)
  have hyrow : (∑ x2 in Finset.range W, f y x2)
      = (∑ x2 in Finset.range W, g y x2) + (f y x - g y x) := by
    refine sum_sub_single W _ _ x hx fun x2 hx2 hne => ?_
    exact h y x2 hy hx2 (by tauto)
  have h1 := sum_sub_single H (fun y2 => ∑ x2 in Finset.range W, f y2 x2)
    (fun y2 => ∑ x2 in Finset.range W, g y2 x2) y hy hrow
  simp only [] at h1
  linarith

/-- Value of the first (sum block) output slice of the forward engine at
an in-range position: the image value when the pixel classifies to class
i, and 0 otherwise. -/
theorem SplitMask_thunk_fst_val (mask : List ℚ) (mask_idx image : Tensor4)
    {i b y x : ℕ} (hi : i < mask.length)
    (hb : b < min mask_idx.shape.n image.shape.n)
    (hy : y < mask_idx.shape.w) (hx : x < mask_idx.shape.w) :
    (SplitMask_thunk mask mask_idx image).1.val i b 0 y x
      = if classify mask (mask_idx.val b 0 y x) = some i then image.val b 0 y x
        else 0 := by
  show (image_mask_split mask mask_idx image).val i b 0 y x = _
  unfold image_mask_split
  dsimp only
  rw [if_pos ⟨hb, rfl, hy, hx⟩]
  cases hc : classify mask (mask_idx.val b 0 y x) with
  | none => simp
  | some k =>
    have hk := (classify_some hc).1
    by_cases hik : i = k
    · simp [hik]
    · have h2 : i ≠ mask.length + k := by omega
      have h3 : i ≠ 2 * mask.length + k := by omega
      simp [hik, h2, h3, Ne.symm hik]

/-- Value of the second (sum-of-squares block) output slice of the
forward engine at an in-range position. -/
theorem SplitMask_thunk_snd_val (mask : List ℚ) (mask_idx image : Tensor4)
    {i b y x : ℕ} (hi : i < mask.length)
    (hb : b < min mask_idx.shape.n image.shape.n)
    (hy : y < mask_idx.shape.w) (hx : x < mask_idx.shape.w) :
    (SplitMask_thunk mask mask_idx image).2.1.val i b 0 y x
      = if classify mask (mask_idx.val b 0 y x) = some i
        then (image.val b 0 y x) ^ 2 else 0 := by
  show (image_mask_split mask mask_idx image).val (mask.length + i) b 0 y x = _
  unfold image_mask_split
  dsimp only
  rw [if_pos ⟨hb, rfl, hy, hx⟩]
  cases hc : classify mask (mask_idx.val b 0 y x) with
  | none => simp
  | some k =>
    have hk := (classify_some hc).1
    have h1 : mask.length + i ≠ k := by omega
    by_cases hik : i = k
    · subst hik
      simp [h1]
    · have h2 : mask.length + i ≠ mask.length + k := by omega
      have h3 : mask.length + i ≠ 2 * mask.length + k := by omega
      simp [hik, h1, h2, h3, Ne.symm hik]

/-- Value of the third (count block) output slice of the forward engine
at an in-range position: the membership indicator of class i. -/
theorem SplitMask_thunk_trd_val (mask : List ℚ) (mask_idx image : Tensor4)
    {i b y x : ℕ} (hi : i < mask.length)
    (hb : b < min mask_idx.shape.n image.shape.n)
    (hy : y < mask_idx.shape.w) (hx : x < mask_idx.shape.w) :
    (SplitMask_thunk mask mask_idx image).2.2.val i b 0 y x
      = if classify mask (mask_idx.val b 0 y x) = some i then (1 : ℚ)
        else 0 := by
  show (image_mask_split mask mask_idx image).val (2 * mask.length + i) b 0 y x = _
  unfold image_mask_split
  dsimp only
  rw [if_pos ⟨hb, rfl, hy, hx⟩]
  cases hc : classify mask (mask_idx.val b 0 y x) with
  | none => simp
  | some k =>
    have hk := (classify_some hc).1
    have h1 : 2 * mask.length + i ≠ k := by omega
    have h2 : 2 * mask.length + i ≠ mask.length + k := by omega
    by_cases hik : i = k
    · subst hik
      simp [h1, h2]
    · have h3 : 2 * mask.length + i ≠ 2 * mask.length + k := by omega
      simp [hik, h1, h2, h3, Ne.symm hik]

/-- Claim C3: when the label map and the image have the same shape and
every pixel label of image b belongs to the (duplicate-free) class
enumeration, the per-class counts of the reference reduction
`theano_split_mask` sum, over all classes, to the total pixel count of
image b. -/
theorem counts_partition_pixels (mask : List ℚ) (mask_idx image : Tensor4)
    (hnd : mask.Nodup) (hsh : mask_idx.shape = image.shape) (b : ℕ)
    (hb : b < mask_idx.shape.n)
    (hmem : ∀ c y x, c < mask_idx.shape.c → y < mask_idx.shape.h →
      x < mask_idx.shape.w → mask_idx.val b c y x ∈ mask) :
    (∑ i in Finset.range mask.length, theano_count mask mask_idx i b)
      = (image.shape.c : ℚ) * (image.shape.h : ℚ) * (image.shape.w : ℚ) := by
  have key : ∀ c y x, c < mask_idx.shape.c → y < mask_idx.shape.h →
      x < mask_idx.shape.w →
      (∑ i in Finset.range mask.length,
        if maskEq mask_idx (mask.getD i 0) b c y x then (1 : ℚ) else 0) = 1 := by
    intro c y x hc hy hx
    obtain ⟨k, hk⟩ := classify_mem (hmem c y x hc hy hx)
    have hkm := (classify_some hk).1
    have hiff : ∀ i, i < mask.length →
        ((maskEq mask_idx (mask.getD i 0) b c y x = true) ↔ i = k) := by
      intro i hi
      rw [maskEq_iff]
      constructor
      · rintro ⟨-, -, -, -, hv⟩
        have h2 : classify mask (mask_idx.val b c y x) = some i :=
          (classify_iff hnd hi _).mpr hv
        exact (Option.some.inj (hk.symm.trans h2)).symm
      · rintro rfl
        exact ⟨hb, hc, hy, hx, (classify_some hk).2.symm⟩
    calc (∑ i in Finset.range mask.length,
            if maskEq mask_idx (mask.getD i 0) b c y x then (1 : ℚ) else 0)
        = ∑ i in Finset.range mask.length, if i = k then (1 : ℚ) else 0 := by
          refine Finset.sum_congr rfl fun i hi => ?_
          exact if_congr (hiff i (Finset.mem_range.mp hi)) rfl rfl
      _ = 1 := by
          rw [Finset.sum_ite_eq' (Finset.range mask.length) k fun _ => (1 : ℚ)]
          simp [Finset.mem_range.mpr hkm]
  unfold theano_count
  rw [Finset.sum_comm]
  have hmid : ∀ c ∈ Finset.range mask_idx.shape.c,
      (∑ i in Finset.range mask.length, ∑ y in Finset.range mask_idx.shape.h,
        ∑ x in Finset.range mask_idx.shape.w,
          if maskEq mask_idx (mask.getD i 0) b c y x then (1 : ℚ) else 0)
      = (mask_idx.shape.h : ℚ) * (mask_idx.shape.w : ℚ) := by
    intro c hc
    rw [Finset.sum_comm]
    have hrow : ∀ y ∈ Finset.range mask_idx.shape.h,
        (∑ i in Finset.range mask.length, ∑ x in Finset.range mask_idx.shape.w,
          if maskEq mask_idx (mask.getD i 0) b c y x then (1 : ℚ) else 0)
        = (mask_idx.shape.w : ℚ) := by
      intro y hy
      rw [Finset.sum_comm]
      have hpt : ∀ x ∈ Finset.range mask_idx.shape.w,
          (∑ i in Finset.range mask.length,
            if maskEq mask_idx (mask.getD i 0) b c y x then (1 : ℚ) else 0) = 1 :=
        fun x hx => key c y x (Finset.mem_range.mp hc) (Finset.mem_range.mp hy)
          (Finset.mem_range.mp hx)
      rw [Finset.sum_congr rfl hpt]
      simp
    rw [Finset.sum_congr rfl hrow]
    simp [mul_comm]
  rw [Finset.sum_congr rfl hmid]
  rw [hsh]
  simp [Finset.sum_const, Finset.card_range]
  ring

/-- Witness for claim C3: the partition property evaluated on the
concrete two-class 4x4 scenario, where the counts 4 and 12 indeed sum to
the 16 pixels of the image. -/
theorem counts_partition_pixels_witness :
    exMask.Nodup ∧ exLabel.shape = exImage.shape ∧ 0 < exLabel.shape.n ∧
    (∀ c y x, c < exLabel.shape.c → y < exLabel.shape.h →
      x < exLabel.shape.w → exLabel.val 0 c y x ∈ exMask) ∧
    (∑ i in Finset.range exMask.length, theano_count exMask exLabel i 0)
      = (exImage.shape.c : ℚ) * (exImage.shape.h : ℚ) * (exImage.shape.w : ℚ) := by
  have hnd : exMask.Nodup := by decide
  have hsh : exLabel.shape = exImage.shape := by decide
  have hb : 0 < exLabel.shape.n := by decide
  have hmem : ∀ c y x, c < exLabel.shape.c → y < exLabel.shape.h →
      x < exLabel.shape.w → exLabel.val 0 c y x ∈ exMask := by
    intro c y x _ _ _
    by_cases hyx : y < 2 ∧ x < 2 <;> simp [exLabel, exMask, hyx]
  exact ⟨hnd, hsh, hb, hmem,
    counts_partition_pixels exMask exLabel exImage hnd hsh 0 hb hmem⟩

/-- Claim C1: for every valid (labelMap, image) pair — equal shapes
passing `shape_ok`, duplicate-free class enumeration — the accelerated
engine `SplitMask` and the reference implementation `theano_split_mask`
produce the same (sum, sumOfSquares, count) triple: the sum and
sum-of-squares volumes agree pixelwise and the count blocks agree after
the spatial reduction (arithmetic is modelled exactly, so "within
floating tolerance" becomes exact equality). -/
theorem splitMask_refines_theano_split_mask (mask : List ℚ)
    (mask_idx image : Tensor4) (hnd : mask.Nodup)
    (hsh : mask_idx.shape = image.shape) (hok : shape_ok mask_idx.shape = true)
    (i b : ℕ) (hi : i < mask.length) (hb : b < image.shape.n) :
    ((SplitMask_thunk mask mask_idx image).1.spatialSum i b
      = (theano_split_mask mask mask_idx image).1.spatialSum i b) ∧
    ((SplitMask_thunk mask mask_idx image).2.1.spatialSum i b
      = (theano_split_mask mask mask_idx image).2.1.spatialSum i b) ∧
    ((SplitMask_thunk mask mask_idx image).2.2.spatialSum i b
      = (theano_split_mask mask mask_idx image).2.2.spatialSum i b) := by
  have hok2 : (mask_idx.shape.h = mask_idx.shape.w ∧
      mask_idx.shape.h % 2 = 0) ∧ mask_idx.shape.c = 1 := by
    simpa [shape_ok] using hok
  obtain ⟨⟨hhw, -⟩, hc1⟩ := hok2
  have hbn : b < mask_idx.shape.n := by rw [hsh]; exact hb
  have hbmin : b < min mask_idx.shape.n image.shape.n := by
    rw [hsh, min_self]; exact hb
  have himc : image.shape.c = 1 := by rw [← hsh]; exact hc1
  have himh : image.shape.h = mask_idx.shape.w := by rw [← hsh]; exact hhw
  have himw : image.shape.w = mask_idx.shape.w := by rw [← hsh]
  have hmne : ∀ y x, maskEq mask_idx (mask.getD i 0) b 0 y x = true →
      classify mask (mask_idx.val b 0 y x) = some i := by
    intro y x hmk
    obtain ⟨-, -, -, -, hval⟩ := (maskEq_iff _ _ _ _ _ _).mp hmk
    exact (classify_iff hnd hi _).mpr hval
  have hmen : ∀ y x, y < mask_idx.shape.w → x < mask_idx.shape.w →
      classify mask (mask_idx.val b 0 y x) = some i →
      maskEq mask_idx (mask.getD i 0) b 0 y x = true := by
    intro y x hy hx hcs
    exact (maskEq_iff _ _ _ _ _ _).mpr
      ⟨hbn, by rw [hc1]; norm_num, by rw [hhw]; exact hy, hx,
        (classify_some hcs).2.symm⟩
  have e1 : ∀ y x, y < mask_idx.shape.w → x < mask_idx.shape.w →
      (SplitMask_thunk mask mask_idx image).1.val i b 0 y x
        = (theano_split_mask mask mask_idx image).1.val i b 0 y x := by
    intro y x hy hx
    rw [SplitMask_thunk_fst_val mask mask_idx image hi hbmin hy hx]
    show _ = if maskEq mask_idx (mask.getD i 0) b 0 y x then image.val b 0 y x
      else 0
    by_cases hm : maskEq mask_idx (mask.getD i 0) b 0 y x = true
    · rw [if_pos hm, if_pos (hmne y x hm)]
    · rw [if_neg hm, if_neg (fun hcs => hm (hmen y x hy hx hcs))]
  have e2 : ∀ y x, y < mask_idx.shape.w → x < mask_idx.shape.w →
      (SplitMask_thunk mask mask_idx image).2.1.val i b 0 y x
        = (theano_split_mask mask mask_idx image).2.1.val i b 0 y x := by
    intro y x hy hx
    rw [SplitMask_thunk_snd_val mask mask_idx image hi hbmin hy hx]
    show _ = (if maskEq mask_idx (mask.getD i 0) b 0 y x then image.val b 0 y x
      else 0) ^ 2
    by_cases hm : maskEq mask_idx (mask.getD i 0) b 0 y x = true
    · rw [if_pos hm, if_pos (hmne y x hm)]
    · rw [if_neg hm, if_neg (fun hcs => hm (hmen y x hy hx hcs))]
      norm_num
  have e3 : ∀ y x, y < mask_idx.shape.w → x < mask_idx.shape.w →
      (SplitMask_thunk mask mask_idx image).2.2.val i b 0 y x
        = (if maskEq mask_idx (mask.getD i 0) b 0 y x then (1 : ℚ) else 0) := by
    intro y x hy hx
    rw [SplitMask_thunk_trd_val mask mask_idx image hi hbmin hy hx]
    by_cases hm : maskEq mask_idx (mask.getD i 0) b 0 y x = true
    · rw [if_pos hm, if_pos (hmne y x hm)]
    · rw [if_neg hm, if_neg (fun hcs => hm (hmen y x hy hx hcs))]
  refine ⟨?_, ?_, ?_⟩
  · show (∑ c in Finset.range 1, ∑ y in Finset.range mask_idx.shape.w,
        ∑ x in Finset.range mask_idx.shape.w,
          (SplitMask_thunk mask mask_idx image).1.val i b c y x)
      = ∑ c in Finset.range image.shape.c, ∑ y in Finset.range image.shape.h,
          ∑ x in Finset.range image.shape.w,
            (theano_split_mask mask mask_idx image).1.val i b c y x
    rw [himc, himh, himw]
    simp only [Finset.sum_range_one]
    exact Finset.sum_congr rfl fun y hy => Finset.sum_congr rfl fun x hx =>
      e1 y x (Finset.mem_range.mp hy) (Finset.mem_range.mp hx)
  · show (∑ c in Finset.range 1, ∑ y in Finset.range mask_idx.shape.w,
        ∑ x in Finset.range mask_idx.shape.w,
          (SplitMask_thunk mask mask_idx image).2.1.val i b c y x)
      = ∑ c in Finset.range image.shape.c, ∑ y in Finset.range image.shape.h,
          ∑ x in Finset.range image.shape.w,
            (theano_split_mask mask mask_idx image).2.1.val i b c y x
    rw [himc, himh, himw]
    simp only [Finset.sum_range_one]
    exact Finset.sum_congr rfl fun y hy => Finset.sum_congr rfl fun x hx =>
      e2 y x (Finset.mem_range.mp hy) (Finset.mem_range.mp hx)
  · show (∑ c in Finset.range 1, ∑ y in Finset.range mask_idx.shape.w,
        ∑ x in Finset.range mask_idx.shape.w,
          (SplitMask_thunk mask mask_idx image).2.2.val i b c y x)
      = ∑ c in Finset.range 1, ∑ y in Finset.range 1, ∑ x in Finset.range 1,
          theano_count mask mask_idx i b
    simp only [Finset.sum_range_one]
    unfold theano_count
    rw [hc1, hhw]
    simp only [Finset.sum_range_one]
    exact Finset.sum_congr rfl fun y hy => Finset.sum_congr rfl fun x hx =>
      e3 y x (Finset.mem_range.mp hy) (Finset.mem_range.mp hx)

/-- Witness for claim C1: the refinement evaluated on the concrete
two-class 4x4 scenario for class A. -/
theorem splitMask_refines_theano_split_mask_witness :
    exMask.Nodup ∧ exLabel.shape = exImage.shape ∧
    shape_ok exLabel.shape = true ∧ 0 < exMask.length ∧
    0 < exImage.shape.n ∧
    (((SplitMask_thunk exMask exLabel exImage).1.spatialSum 0 0
        = (theano_split_mask exMask exLabel exImage).1.spatialSum 0 0) ∧
      ((SplitMask_thunk exMask exLabel exImage).2.1.spatialSum 0 0
        = (theano_split_mask exMask exLabel exImage).2.1.spatialSum 0 0) ∧
      ((SplitMask_thunk exMask exLabel exImage).2.2.spatialSum 0 0
        = (theano_split_mask exMask exLabel exImage).2.2.spatialSum 0 0)) :=
  ⟨by decide, by decide, by decide, by decide, by decide,
    splitMask_refines_theano_split_mask exMask exLabel exImage (by decide)
      (by decide) (by decide) 0 0 (by decide) (by decide)⟩

/-- Claim C2: for every pixel (b, y, x) of class k, the backward kernel
writes gradSum[k, b] (when the sum gradient is connected) plus
2 * image[b, 0, y, x] * gradSumOfSquares[k, b] (when the pow gradient is
connected) into gradImage[b, 0, y, x]; and this is the analytic gradient
of the forward outputs: replacing that one pixel by the value v changes
the spatially reduced sum output of class cp in batch row bp by exactly
(v - image[b, 0, y, x]) when (bp, cp) = (b, k) and by 0 otherwise, and
the sum-of-squares output by (v ^ 2 - image[b, 0, y, x] ^ 2)
correspondingly, so d(sum)/d(pixel) = 1 and
d(sumOfSquares)/d(pixel) = 2 * pixel on the owning class and 0
elsewhere. -/
theorem splitMaskGrad_is_analytic_gradient (mask : List ℚ)
    (mask_idx image : Tensor4) (sum_connected pow_connected : Bool)
    (og_sum og_pow : ℕ → ℕ → ℚ) (b y x k cp bp : ℕ) (v : ℚ)
    (hb : b < min mask_idx.shape.n image.shape.n)
    (hy : y < mask_idx.shape.w) (hx : x < mask_idx.shape.w)
    (hcls : classify mask (mask_idx.val b 0 y x) = some k)
    (hcp : cp < mask.length) :
    ((image_mask_split_grad mask sum_connected pow_connected mask_idx image
        og_sum og_pow).val b 0 y x
      = (if sum_connected then og_sum k b else 0)
        + (if pow_connected then 2 * image.val b 0 y x * og_pow k b else 0)) ∧
    ((SplitMask_thunk mask mask_idx (set_pixel image b y x v)).1.spatialSum cp bp
      = (SplitMask_thunk mask mask_idx image).1.spatialSum cp bp
        + (if bp = b ∧ cp = k then v - image.val b 0 y x else 0)) ∧
    ((SplitMask_thunk mask mask_idx (set_pixel image b y x v)).2.1.spatialSum cp bp
      = (SplitMask_thunk mask mask_idx image).2.1.spatialSum cp bp
        + (if bp = b ∧ cp = k then v ^ 2 - (image.val b 0 y x) ^ 2 else 0)) := by
  have hb2 : b < min mask_idx.shape.n (set_pixel image b y x v).shape.n := hb
  have hset_at : (set_pixel image b y x v).val b 0 y x = v := by
    dsimp [set_pixel]
    rw [if_pos ⟨rfl, rfl, rfl, rfl⟩]
  have hset_off : ∀ b3 y2 x2, ¬(b3 = b ∧ y2 = y ∧ x2 = x) →
      (set_pixel image b y x v).val b3 0 y2 x2 = image.val b3 0 y2 x2 := by
    intro b3 y2 x2 hne
    dsimp [set_pixel]
    rw [if_neg (fun h => hne ⟨h.1, h.2.2.1, h.2.2.2⟩)]
  refine ⟨?_, ?_, ?_⟩
  · show (image_mask_split_grad mask sum_connected pow_connected mask_idx image
        og_sum og_pow).val b 0 y x = _
    unfold image_mask_split_grad
    dsimp only
    rw [if_pos ⟨hb, rfl, hy, hx⟩, hcls]
  · by_cases hbb : bp = b
    · subst hbb
      show (∑ c in Finset.range 1, ∑ y2 in Finset.range mask_idx.shape.w,
          ∑ x2 in Finset.range mask_idx.shape.w,
            (SplitMask_thunk mask mask_idx (set_pixel image bp y x v)).1.val
              cp bp c y2 x2)
        = (∑ c in Finset.range 1, ∑ y2 in Finset.range mask_idx.shape.w,
            ∑ x2 in Finset.range mask_idx.shape.w,
              (SplitMask_thunk mask mask_idx image).1.val cp bp c y2 x2)
          + (if bp = bp ∧ cp = k then v - image.val bp 0 y x else 0)
      simp only [Finset.sum_range_one]
      have hdiff := sum2_sub_single mask_idx.shape.w mask_idx.shape.w
        (fun y2 x2 =>
          (SplitMask_thunk mask mask_idx (set_pixel image bp y x v)).1.val
            cp bp 0 y2 x2)
        (fun y2 x2 => (SplitMask_thunk mask mask_idx image).1.val cp bp 0 y2 x2)
        y x hy hx (by
          intro y2 x2 hy2 hx2 hne
          show (SplitMask_thunk mask mask_idx (set_pixel image bp y x v)).1.val
              cp bp 0 y2 x2
            = (SplitMask_thunk mask mask_idx image).1.val cp bp 0 y2 x2
          rw [SplitMask_thunk_fst_val mask mask_idx (set_pixel image bp y x v)
              hcp hb2 hy2 hx2,
            SplitMask_thunk_fst_val mask mask_idx image hcp hb hy2 hx2,
            hset_off bp y2 x2 (fun h => hne ⟨h.2.1, h.2.2⟩)])
      rw [hdiff]
      dsimp only
      congr 1
      rw [SplitMask_thunk_fst_val mask mask_idx (set_pixel image bp y x v)
          hcp hb2 hy hx,
        SplitMask_thunk_fst_val mask mask_idx image hcp hb hy hx,
        hset_at, hcls]
      by_cases hck : cp = k
      · subst hck
        simp
      · simp [hck, Ne.symm hck]
    · show (∑ c in Finset.range 1, ∑ y2 in Finset.range mask_idx.shape.w,
          ∑ x2 in Finset.range mask_idx.shape.w,
            (SplitMask_thunk mask mask_idx (set_pixel image b y x v)).1.val
              cp bp c y2 x2)
        = (∑ c in Finset.range 1, ∑ y2 in Finset.range mask_idx.shape.w,
            ∑ x2 in Finset.range mask_idx.shape.w,
              (SplitMask_thunk mask mask_idx image).1.val cp bp c y2 x2)
          + (if bp = b ∧ cp = k then v - image.val b 0 y x else 0)
      rw [if_neg (fun h => hbb h.1), add_zero]
      simp only [Finset.sum_range_one]
      refine Finset.sum_congr rfl fun y2 hy2 => Finset.sum_congr rfl fun x2 hx2 => ?_
      by_cases hbpn : bp < min mask_idx.shape.n image.shape.n
      · rw [SplitMask_thunk_fst_val mask mask_idx (set_pixel image b y x v)
            hcp hbpn (Finset.mem_range.mp hy2) (Finset.mem_range.mp hx2),
          SplitMask_thunk_fst_val mask mask_idx image hcp hbpn
            (Finset.mem_range.mp hy2) (Finset.mem_range.mp hx2),
          hset_off bp y2 x2 (fun h => hbb h.1)]
      · show (image_mask_split mask mask_idx (set_pixel image b y x v)).val
            cp bp 0 y2 x2
          = (image_mask_split mask mask_idx image).val cp bp 0 y2 x2
        unfold image_mask_split
        dsimp only
        rw [if_neg (fun h => hbpn h.1), if_neg (fun h => hbpn h.1)]
  · by_cases hbb : bp = b
    · subst hbb
      show (∑ c in Finset.range 1, ∑ y2 in Finset.range mask_idx.shape.w,
          ∑ x2 in Finset.range mask_idx.shape.w,
            (SplitMask_thunk mask mask_idx (set_pixel image bp y x v)).2.1.val
              cp bp c y2 x2)
        = (∑ c in Finset.range 1, ∑ y2 in Finset.range mask_idx.shape.w,
            ∑ x2 in Finset.range mask_idx.shape.w,
              (SplitMask_thunk mask mask_idx image).2.1.val cp bp c y2 x2)
          + (if bp = bp ∧ cp = k then v ^ 2 - (image.val bp 0 y x) ^ 2 else 0)
      simp only [Finset.sum_range_one]
      have hdiff := sum2_sub_single mask_idx.shape.w mask_idx.shape.w
        (fun y2 x2 =>
          (SplitMask_thunk mask mask_idx (set_pixel image bp y x v)).2.1.val
            cp bp 0 y2 x2)
        (fun y2 x2 => (SplitMask_thunk mask mask_idx image).2.1.val cp bp 0 y2 x2)
        y x hy hx (by
          intro y2 x2 hy2 hx2 hne
          show (SplitMask_thunk mask mask_idx (set_pixel image bp y x v)).2.1.val
              cp bp 0 y2 x2
            = (SplitMask_thunk mask mask_idx image).2.1.val cp bp 0 y2 x2
          rw [SplitMask_thunk_snd_val mask mask_idx (set_pixel image bp y x v)
              hcp hb2 hy2 hx2,
            SplitMask_thunk_snd_val mask mask_idx image hcp hb hy2 hx2,
            hset_off bp y2 x2 (fun h => hne ⟨h.2.1, h.2.2⟩)])
      rw [hdiff]
      dsimp only
      congr 1
      rw [SplitMask_thunk_snd_val mask mask_idx (set_pixel image bp y x v)
          hcp hb2 hy hx,
        SplitMask_thunk_snd_val mask mask_idx image hcp hb hy hx,
        hset_at, hcls]
      by_cases hck : cp = k
      · subst hck
        simp
      · simp [hck, Ne.symm hck]
    · show (∑ c in Finset.range 1, ∑ y2 in Finset.range mask_idx.shape.w,
          ∑ x2 in Finset.range mask_idx.shape.w,
            (SplitMask_thunk mask mask_idx (set_pixel image b y x v)).2.1.val
              cp bp c y2 x2)
        = (∑ c in Finset.range 1, ∑ y2 in Finset.range mask_idx.shape.w,
            ∑ x2 in Finset.range mask_idx.shape.w,
              (SplitMask_thunk mask mask_idx image).2.1.val cp bp c y2 x2)
          + (if bp = b ∧ cp = k then v ^ 2 - (image.val b 0 y x) ^ 2 else 0)
      rw [if_neg (fun h => hbb h.1), add_zero]
      simp only [Finset.sum_range_one]
      refine Finset.sum_congr rfl fun y2 hy2 => Finset.sum_congr rfl fun x2 hx2 => ?_
      by_cases hbpn : bp < min mask_idx.shape.n image.shape.n
      · rw [SplitMask_thunk_snd_val mask mask_idx (set_pixel image b y x v)
            hcp hbpn (Finset.mem_range.mp hy2) (Finset.mem_range.mp hx2),
          SplitMask_thunk_snd_val mask mask_idx image hcp hbpn
            (Finset.mem_range.mp hy2) (Finset.mem_range.mp hx2),
          hset_off bp y2 x2 (fun h => hbb h.1)]
      · show (image_mask_split mask mask_idx (set_pixel image b y x v)).val
            (mask.length + cp) bp 0 y2 x2
          = (image_mask_split mask mask_idx image).val (mask.length + cp) bp 0 y2 x2
        unfold image_mask_split
        dsimp only
        rw [if_neg (fun h => hbpn h.1), if_neg (fun h => hbpn h.1)]

/-- Witness for claim C2: the gradient property at pixel (0, 0, 0) of the
concrete scenario, which belongs to class A, with both gradients
connected, upstream gradients 2 and 3, and pixel replacement value 7. -/
theorem splitMaskGrad_is_analytic_gradient_witness :
    0 < min exLabel.shape.n exImage.shape.n ∧ 0 < exLabel.shape.w ∧
    classify exMask (exLabel.val 0 0 0 0) = some 0 ∧ 0 < exMask.length ∧
    (((image_mask_split_grad exMask true true exLabel exImage
        (fun _ _ => 2) (fun _ _ => 3)).val 0 0 0 0
      = (if true then (fun (_ _ : ℕ) => (2 : ℚ)) 0 0 else 0)
        + (if true then 2 * exImage.val 0 0 0 0 * (fun (_ _ : ℕ) => (3 : ℚ)) 0 0
          else 0)) ∧
    ((SplitMask_thunk exMask exLabel (set_pixel exImage 0 0 0 7)).1.spatialSum 0 0
      = (SplitMask_thunk exMask exLabel exImage).1.spatialSum 0 0
        + (if 0 = 0 ∧ 0 = 0 then 7 - exImage.val 0 0 0 0 else 0)) ∧
    ((SplitMask_thunk exMask exLabel (set_pixel exImage 0 0 0 7)).2.1.spatialSum 0 0
      = (SplitMask_thunk exMask exLabel exImage).2.1.spatialSum 0 0
        + (if 0 = 0 ∧ 0 = 0 then 7 ^ 2 - (exImage.val 0 0 0 0) ^ 2 else 0))) :=
  ⟨by decide, by decide, by decide, by decide,
    splitMaskGrad_is_analytic_gradient exMask exLabel exImage true true
      (fun _ _ => 2) (fun _ _ => 3) 0 0 0 0 0 0 7 (by decide) (by decide)
      (by decide) (by decide) (by decide)⟩

/-- Claim C4: the statistics post-processor returns mean 0 and variance 0
for any class/batch slot whose spatially reduced count is 0 (part one, for
arbitrary input volumes, with no division fault since the zero-count
branch is explicit), and returns mean x and variance 0 for a slot of the
reference pipeline in which at least one pixel belongs to the class and
all pixels of the class share the value x (part two). -/
theorem split_to_mean_var_zero_count_and_constant_class
    (sv pv cv : Vol5) (i0 b0 : ℕ) (h0 : cv.spatialSum i0 b0 = 0)
    (mask : List ℚ) (mask_idx image : Tensor4) (xv : ℚ) (i b c0 y0 x0 : ℕ)
    (hsh : mask_idx.shape = image.shape) (hb : b < mask_idx.shape.n)
    (hc0 : c0 < mask_idx.shape.c) (hy0 : y0 < mask_idx.shape.h)
    (hx0 : x0 < mask_idx.shape.w)
    (hv0 : mask_idx.val b c0 y0 x0 = mask.getD i 0)
    (hconst : ∀ c y x, c < mask_idx.shape.c → y < mask_idx.shape.h →
      x < mask_idx.shape.w → mask_idx.val b c y x = mask.getD i 0 →
      image.val b c y x = xv) :
    ((split_to_mean_var sv pv cv).1 i0 b0 = 0 ∧
      (split_to_mean_var sv pv cv).2.1 i0 b0 = 0) ∧
    ((split_to_mean_var (theano_split_mask mask mask_idx image).1
        (theano_split_mask mask mask_idx image).2.1
        (theano_split_mask mask mask_idx image).2.2).1 i b = xv ∧
      (split_to_mean_var (theano_split_mask mask mask_idx image).1
        (theano_split_mask mask mask_idx image).2.1
        (theano_split_mask mask mask_idx image).2.2).2.1 i b = 0) := by
  constructor
  · constructor
    · simp [split_to_mean_var, mean_by_count, h0]
    · simp [split_to_mean_var, mean_by_count, h0]
  · have hmk : maskEq mask_idx (mask.getD i 0) b c0 y0 x0 = true :=
      (maskEq_iff mask_idx (mask.getD i 0) b c0 y0 x0).mpr
        ⟨hb, hc0, hy0, hx0, hv0⟩
    have hKpos : 0 < theano_count mask mask_idx i b := by
      unfold theano_count
      have hFnn : ∀ c y x : ℕ,
          (0 : ℚ) ≤ if maskEq mask_idx (mask.getD i 0) b c y x then 1 else 0 := by
        intro c y x
        split <;> norm_num
      have h1 : (1 : ℚ) ≤ ∑ x in Finset.range mask_idx.shape.w,
          if maskEq mask_idx (mask.getD i 0) b c0 y0 x then 1 else 0 := by
        have hle := Finset.single_le_sum
          (f := fun x => if maskEq mask_idx (mask.getD i 0) b c0 y0 x then (1 : ℚ) else 0)
          (fun x _ => hFnn c0 y0 x) (Finset.mem_range.mpr hx0)
        calc (1 : ℚ)
            = if maskEq mask_idx (mask.getD i 0) b c0 y0 x0 then 1 else 0 :=
              (if_pos hmk).symm
          _ ≤ _ := hle
      have h2 : (∑ x in Finset.range mask_idx.shape.w,
            if maskEq mask_idx (mask.getD i 0) b c0 y0 x then (1 : ℚ) else 0)
          ≤ ∑ y in Finset.range mask_idx.shape.h,
              ∑ x in Finset.range mask_idx.shape.w,
                if maskEq mask_idx (mask.getD i 0) b c0 y x then 1 else 0 :=
        Finset.single_le_sum
          (fun y _ => Finset.sum_nonneg fun x _ => hFnn c0 y x)
          (Finset.mem_range.mpr hy0)
      have h3 : (∑ y in Finset.range mask_idx.shape.h,
            ∑ x in Finset.range mask_idx.shape.w,
              if maskEq mask_idx (mask.getD i 0) b c0 y x then (1 : ℚ) else 0)
          ≤ ∑ c in Finset.range mask_idx.shape.c,
              ∑ y in Finset.range mask_idx.shape.h,
                ∑ x in Finset.range mask_idx.shape.w,
                  if maskEq mask_idx (mask.getD i 0) b c y x then 1 else 0 :=
        Finset.single_le_sum
          (fun c _ => Finset.sum_nonneg fun y _ =>
            Finset.sum_nonneg fun x _ => hFnn c y x)
          (Finset.mem_range.mpr hc0)
      linarith
    have hK := ne_of_gt hKpos
    have hsum : (theano_split_mask mask mask_idx image).1.spatialSum i b
        = xv * theano_count mask mask_idx i b := by
      have hpt : ∀ c y x, c < mask_idx.shape.c → y < mask_idx.shape.h →
          x < mask_idx.shape.w →
          (if maskEq mask_idx (mask.getD i 0) b c y x then image.val b c y x
            else 0)
          = xv * (if maskEq mask_idx (mask.getD i 0) b c y x then (1 : ℚ)
            else 0) := by
        intro c y x hc hy hx
        by_cases hm : maskEq mask_idx (mask.getD i 0) b c y x = true
        · obtain ⟨-, -, -, -, hval⟩ := (maskEq_iff _ _ _ _ _ _).mp hm
          rw [if_pos hm, if_pos hm, hconst c y x hc hy hx hval]
          ring
        · rw [if_neg hm, if_neg hm]
          ring
      show (∑ c in Finset.range image.shape.c,
          ∑ y in Finset.range image.shape.h,
            ∑ x in Finset.range image.shape.w,
              if maskEq mask_idx (mask.getD i 0) b c y x then image.val b c y x
              else 0)
        = xv * theano_count mask mask_idx i b
      unfold theano_count
      rw [← hsh, Finset.mul_sum]
      refine Finset.sum_congr rfl fun c hc => ?_
      rw [Finset.mul_sum]
      refine Finset.sum_congr rfl fun y hy => ?_
      rw [Finset.mul_sum]
      refine Finset.sum_congr rfl fun x hx => ?_
      exact hpt c y x (Finset.mem_range.mp hc) (Finset.mem_range.mp hy)
        (Finset.mem_range.mp hx)
    have hpow : (theano_split_mask mask mask_idx image).2.1.spatialSum i b
        = xv ^ 2 * theano_count mask mask_idx i b := by
      have hpt : ∀ c y x, c < mask_idx.shape.c → y < mask_idx.shape.h →
          x < mask_idx.shape.w →
          ((if maskEq mask_idx (mask.getD i 0) b c y x then image.val b c y x
            else 0) ^ 2)
          = xv ^ 2 * (if maskEq mask_idx (mask.getD i 0) b c y x then (1 : ℚ)
            else 0) := by
        intro c y x hc hy hx
        by_cases hm : maskEq mask_idx (mask.getD i 0) b c y x = true
        · obtain ⟨-, -, -, -, hval⟩ := (maskEq_iff _ _ _ _ _ _).mp hm
          rw [if_pos hm, if_pos hm, hconst c y x hc hy hx hval]
          ring
        · rw [if_neg hm, if_neg hm]
          ring
      show (∑ c in Finset.range image.shape.c,
          ∑ y in Finset.range image.shape.h,
            ∑ x in Finset.range image.shape.w,
              (if maskEq mask_idx (mask.getD i 0) b c y x then image.val b c y x
                else 0) ^ 2)
        = xv ^ 2 * theano_count mask mask_idx i b
      unfold theano_count
      rw [← hsh, Finset.mul_sum]
      refine Finset.sum_congr rfl fun c hc => ?_
      rw [Finset.mul_sum]
      refine Finset.sum_congr rfl fun y hy => ?_
      rw [Finset.mul_sum]
      refine Finset.sum_congr rfl fun x hx => ?_
      exact hpt c y x (Finset.mem_range.mp hc) (Finset.mem_range.mp hy)
        (Finset.mem_range.mp hx)
    have hcnt : (theano_split_mask mask mask_idx image).2.2.spatialSum i b
        = theano_count mask mask_idx i b := by
      show (∑ c in Finset.range 1, ∑ y in Finset.range 1, ∑ x in Finset.range 1,
          theano_count mask mask_idx i b) = theano_count mask mask_idx i b
      simp
    constructor
    · show mean_by_count (theano_split_mask mask mask_idx image).1
        (fun i b => (theano_split_mask mask mask_idx image).2.2.spatialSum i b)
        i b = xv
      rw [mean_by_count, hcnt, if_neg hK, hsum, mul_div_assoc, div_self hK,
        mul_one]
    · show mean_by_count (theano_split_mask mask mask_idx image).2.1
          (fun i b => (theano_split_mask mask mask_idx image).2.2.spatialSum i b)
          i b
        - (mean_by_count (theano_split_mask mask mask_idx image).1
            (fun i b => (theano_split_mask mask mask_idx image).2.2.spatialSum i b)
            i b) ^ 2 = 0
      rw [mean_by_count, mean_by_count, hcnt, if_neg hK, if_neg hK, hsum, hpow,
        mul_div_assoc, mul_div_assoc, div_self hK, mul_one, mul_one]
      ring

/-- Witness for claim C4: part one applied to an all-zero count volume,
and part two applied to class A of the concrete 4x4 scenario, whose
pixels all carry the value 1. -/
theorem split_to_mean_var_zero_count_and_constant_class_witness :
    ((Vol5.mk 1 1 1 1 1 fun _ _ _ _ _ => 0).spatialSum 0 0 = 0) ∧
    exLabel.shape = exImage.shape ∧ 0 < exLabel.shape.n ∧
    exLabel.val 0 0 0 0 = exMask.getD 0 0 ∧
    (∀ c y x, c < exLabel.shape.c → y < exLabel.shape.h →
      x < exLabel.shape.w → exLabel.val 0 c y x = exMask.getD 0 0 →
      exImage.val 0 c y x = 1) ∧
    (((split_to_mean_var (Vol5.mk 1 1 1 1 1 fun _ _ _ _ _ => 0)
          (Vol5.mk 1 1 1 1 1 fun _ _ _ _ _ => 0)
          (Vol5.mk 1 1 1 1 1 fun _ _ _ _ _ => 0)).1 0 0 = 0 ∧
        (split_to_mean_var (Vol5.mk 1 1 1 1 1 fun _ _ _ _ _ => 0)
          (Vol5.mk 1 1 1 1 1 fun _ _ _ _ _ => 0)
          (Vol5.mk 1 1 1 1 1 fun _ _ _ _ _ => 0)).2.1 0 0 = 0) ∧
      ((split_to_mean_var (theano_split_mask exMask exLabel exImage).1
          (theano_split_mask exMask exLabel exImage).2.1
          (theano_split_mask exMask exLabel exImage).2.2).1 0 0 = 1 ∧
        (split_to_mean_var (theano_split_mask exMask exLabel exImage).1
          (theano_split_mask exMask exLabel exImage).2.1
          (theano_split_mask exMask exLabel exImage).2.2).2.1 0 0 = 0)) := by
  have h0 : (Vol5.mk 1 1 1 1 1 fun _ _ _ _ _ => 0).spatialSum 0 0 = 0 := by
    simp [Vol5.spatialSum]
  have hsh : exLabel.shape = exImage.shape := by decide
  have hb : 0 < exLabel.shape.n := by decide
  have hv0 : exLabel.val 0 0 0 0 = exMask.getD 0 0 := by decide
  have hconst : ∀ c y x, c < exLabel.shape.c → y < exLabel.shape.h →
      x < exLabel.shape.w → exLabel.val 0 c y x = exMask.getD 0 0 →
      exImage.val 0 c y x = 1 := by
    intro c y x _ _ _ h
    by_cases hyx : y < 2 ∧ x < 2
    · simp [exImage, hyx]
    · exfalso
      simp [exLabel, exMask, hyx] at h
  exact ⟨h0, hsh, hb, hv0, hconst,
    split_to_mean_var_zero_count_and_constant_class
      (Vol5.mk 1 1 1 1 1 fun _ _ _ _ _ => 0)
      (Vol5.mk 1 1 1 1 1 fun _ _ _ _ _ => 0)
      (Vol5.mk 1 1 1 1 1 fun _ _ _ _ _ => 0) 0 0 h0
      exMask exLabel exImage 1 0 0 0 0 0 hsh hb
      (by decide) (by decide) (by decide) hv0 hconst⟩

/-- Claim C9: on the concrete 4x4 two-class scenario, the reference
reduction followed by the statistics post-processor yields
count[A] = 4, spatially reduced sum[A] = 4 and sumOfSquares[A] = 4,
count[B] = 12, sum[B] = 36, sumOfSquares[B] = 108, mean[A] = 1,
var[A] = 0, mean[B] = 3, var[B] = 0. -/
theorem theano_concrete_scenario :
    theano_count exMask exLabel 0 0 = 4 ∧
    (theano_split_mask exMask exLabel exImage).1.spatialSum 0 0 = 4 ∧
    (theano_split_mask exMask exLabel exImage).2.1.spatialSum 0 0 = 4 ∧
    theano_count exMask exLabel 1 0 = 12 ∧
    (theano_split_mask exMask exLabel exImage).1.spatialSum 1 0 = 36 ∧
    (theano_split_mask exMask exLabel exImage).2.1.spatialSum 1 0 = 108 ∧
    (split_to_mean_var (theano_split_mask exMask exLabel exImage).1
      (theano_split_mask exMask exLabel exImage).2.1
      (theano_split_mask exMask exLabel exImage).2.2).1 0 0 = 1 ∧
    (split_to_mean_var (theano_split_mask exMask exLabel exImage).1
      (theano_split_mask exMask exLabel exImage).2.1
      (theano_split_mask exMask exLabel exImage).2.2).2.1 0 0 = 0 ∧
    (split_to_mean_var (theano_split_mask exMask exLabel exImage).1
      (theano_split_mask exMask exLabel exImage).2.1
      (theano_split_mask exMask exLabel exImage).2.2).1 1 0 = 3 ∧
    (split_to_mean_var (theano_split_mask exMask exLabel exImage).1
      (theano_split_mask exMask exLabel exImage).2.1
      (theano_split_mask exMask exLabel exImage).2.2).2.1 1 0 = 0 := by
  have h1 : (Finset.filter (fun x => x < 4 ∧ x < 2) (Finset.range 4)).card = 2 := by
    decide
  have h2 : (Finset.filter (fun x => x < 4 ∧ 2 ≤ x) (Finset.range 4)).card = 2 := by
    decide
  have h3 : (Finset.filter (fun x => x < 4) (Finset.range 4)).card = 4 := by
    decide
  have h4 : Finset.filter (fun x => x < 4 ∧ x < 2) (Finset.range 4) ≠ ∅ := by
    decide
  norm_num [theano_count, theano_split_mask, split_to_mean_var, mean_by_count,
    Vol5.spatialSum, maskEq, exMask, exLabel, exImage,
    Finset.sum_range_succ, Finset.sum_range_zero, h1, h2, h3, h4]

/-- Claim C5: both the forward reduction and the backward gradient use
the effective batch size min(N1, N2): each of the three forward output
volumes and the gradient tensor is allocated with batch extent exactly
min of the label-map and image batch extents, so rows beyond that index
are absent from the outputs rather than zero-filled. -/
theorem effective_batch_is_min (mask : List ℚ) (mask_idx image : Tensor4)
    (connected : List String) (og_sum og_pow : ℕ → ℕ → ℚ) :
    (SplitMask_thunk mask mask_idx image).1.n
        = min mask_idx.shape.n image.shape.n ∧
    (SplitMask_thunk mask mask_idx image).2.1.n
        = min mask_idx.shape.n image.shape.n ∧
    (SplitMask_thunk mask mask_idx image).2.2.n
        = min mask_idx.shape.n image.shape.n ∧
    (SplitMaskGrad_thunk mask connected mask_idx image og_sum og_pow).shape
        = ⟨min mask_idx.shape.n image.shape.n, 1, mask_idx.shape.w,
            mask_idx.shape.w⟩ := by
  refine ⟨rfl, rfl, rfl, ?_⟩
  unfold SplitMaskGrad_thunk image_mask_split_grad
  split
  · rfl
  · split
    · rfl
    · split
      · rfl
      · rfl

/-- Claim C6: constructing the backward operation with neither "sum" nor
"pow" in the connection list raises the error "At least sum or pow
gradient must be provided", as does applying `make_node` with both
upstream gradients disconnected; with at least one connected no such
error is raised, and the kernel specialisation (both / sum-only /
pow-only) is determined once by the membership test at construction. -/
theorem grad_requires_some_connection (connected : Option (List String))
    (sd pd : Bool) :
    (SplitMaskGrad_init connected
        = Except.error (r"At least sum or pow gradient must be provided")
      ↔ (r"sum" ∉ connected.getD [r"sum", r"pow"] ∧
        r"pow" ∉ connected.getD [r"sum", r"pow"])) ∧
    (SplitMaskGrad_make_node sd pd
        = Except.error (r"At least sum or pow gradient must be provided")
      ↔ (sd = true ∧ pd = true)) ∧
    ((r"sum" ∈ connected.getD [r"sum", r"pow"] ∧
        r"pow" ∈ connected.getD [r"sum", r"pow"]) →
      SplitMaskGrad_init connected
        = Except.ok (r"image_mask_split_grad_sum_pow")) ∧
    ((r"sum" ∈ connected.getD [r"sum", r"pow"] ∧
        r"pow" ∉ connected.getD [r"sum", r"pow"]) →
      SplitMaskGrad_init connected
        = Except.ok (r"image_mask_split_grad_sum")) ∧
    ((r"sum" ∉ connected.getD [r"sum", r"pow"] ∧
        r"pow" ∈ connected.getD [r"sum", r"pow"]) →
      SplitMaskGrad_init connected
        = Except.ok (r"image_mask_split_grad_pow")) := by
  by_cases hs : r"sum" ∈ connected.getD [r"sum", r"pow"] <;>
    by_cases hp : r"pow" ∈ connected.getD [r"sum", r"pow"] <;>
      cases sd <;> cases pd <;>
        simp [SplitMaskGrad_init, SplitMaskGrad_make_node, hs, hp]

/-- Witness for claim C6: the characterisation applied to an explicit
sum-only connection list and a sum-connected, pow-disconnected node. -/
theorem grad_requires_some_connection_witness :
    (SplitMaskGrad_init (some [r"sum"])
        = Except.error (r"At least sum or pow gradient must be provided")
      ↔ (r"sum" ∉ (some [r"sum"] : Option (List String)).getD [r"sum", r"pow"] ∧
        r"pow" ∉ (some [r"sum"] : Option (List String)).getD [r"sum", r"pow"])) ∧
    (SplitMaskGrad_make_node false true
        = Except.error (r"At least sum or pow gradient must be provided")
      ↔ (false = true ∧ true = true)) ∧
    ((r"sum" ∈ (some [r"sum"] : Option (List String)).getD [r"sum", r"pow"] ∧
        r"pow" ∈ (some [r"sum"] : Option (List String)).getD [r"sum", r"pow"]) →
      SplitMaskGrad_init (some [r"sum"])
        = Except.ok (r"image_mask_split_grad_sum_pow")) ∧
    ((r"sum" ∈ (some [r"sum"] : Option (List String)).getD [r"sum", r"pow"] ∧
        r"pow" ∉ (some [r"sum"] : Option (List String)).getD [r"sum", r"pow"]) →
      SplitMaskGrad_init (some [r"sum"])
        = Except.ok (r"image_mask_split_grad_sum")) ∧
    ((r"sum" ∉ (some [r"sum"] : Option (List String)).getD [r"sum", r"pow"] ∧
        r"pow" ∈ (some [r"sum"] : Option (List String)).getD [r"sum", r"pow"]) →
      SplitMaskGrad_init (some [r"sum"])
        = Except.ok (r"image_mask_split_grad_pow")) :=
  grad_requires_some_connection (some [r"sum"]) false true

/-- Counterexample to claim C7: the claim states that violating the
precondition "equal spatial shape between labelMap and image" is a fatal
assertion, but every assertion of `SplitMask.make_node` and of the thunk
of `SplitMask.make_thunk` passes for a 6x6 label map paired with a 4x4
image (each square, even and single-channel, both float32), although the
two spatial shapes differ — so that violation is not caught. -/
theorem spatial_shape_mismatch_passes_checks :
    SplitMask_checks ⟨1, 1, 6, 6⟩ ⟨1, 1, 4, 4⟩ (r"float32") (r"float32") = true ∧
    Shape4.h ⟨1, 1, 6, 6⟩ ≠ Shape4.h ⟨1, 1, 4, 4⟩ := by
  constructor
  · decide
  · decide

/-- Claim C7 (amended): the assertions guarding a forward call pass
exactly when both dtypes are float32 and each tensor individually has a
square, even-sided, single-channel shape; a violation of any of these is
an assertion failure, but equality of the two spatial shapes is not
itself asserted (the engine takes the side length from the label map). -/
theorem forward_checks_characterisation (shp1 shp2 : Shape4)
    (d1 d2 : String) :
    SplitMask_checks shp1 shp2 d1 d2 = true ↔
      (d1 = r"float32" ∧ d2 = r"float32" ∧
        (shp1.h = shp1.w ∧ shp1.h % 2 = 0 ∧ shp1.c = 1) ∧
        (shp2.h = shp2.w ∧ shp2.h % 2 = 0 ∧ shp2.c = 1)) := by
  simp [SplitMask_checks, SplitMask_node_checks, SplitMask_thunk_checks,
    shape_ok, and_assoc]
  tauto

/-- Witness for claim C7 (amended): the characterisation applied to a
valid 4x4 single-channel float32 pair. -/
theorem forward_checks_characterisation_witness :
    SplitMask_checks ⟨2, 1, 4, 4⟩ ⟨3, 1, 4, 4⟩ (r"float32") (r"float32") = true ↔
      ((r"float32" : String) = r"float32" ∧ (r"float32" : String) = r"float32" ∧
        (Shape4.h ⟨2, 1, 4, 4⟩ = Shape4.w ⟨2, 1, 4, 4⟩ ∧
          Shape4.h ⟨2, 1, 4, 4⟩ % 2 = 0 ∧ Shape4.c ⟨2, 1, 4, 4⟩ = 1) ∧
        (Shape4.h ⟨3, 1, 4, 4⟩ = Shape4.w ⟨3, 1, 4, 4⟩ ∧
          Shape4.h ⟨3, 1, 4, 4⟩ % 2 = 0 ∧ Shape4.c ⟨3, 1, 4, 4⟩ = 1)) :=
  forward_checks_characterisation ⟨2, 1, 4, 4⟩ ⟨3, 1, 4, 4⟩ (r"float32")
    (r"float32")

/-- Claim C8: for every input and every connection mode, the gradient
returned by `SplitMask.grad` for the label-map input is exactly
`T.zeros_like(labelMap)`: a tensor shaped like the label map with every
entry zero. -/
theorem labelMap_gradient_is_zero (mask : List ℚ) (mask_idx image : Tensor4)
    (sd pd : Bool) (og_sum og_pow : ℕ → ℕ → ℚ) (b c y x : ℕ) :
    (SplitMask_grad mask mask_idx image sd pd og_sum og_pow).1.shape
        = mask_idx.shape ∧
    (SplitMask_grad mask mask_idx image sd pd og_sum og_pow).1.val b c y x
        = 0 :=
  ⟨rfl, rfl⟩

/-- Claim C10: in the reference implementation the second returned volume
is everywhere the elementwise square of the first, and at every pixel
position whose label value differs from the value of class i both volumes
are exactly zero. -/
theorem squares_and_masking_of_reference (mask : List ℚ)
    (mask_idx image : Tensor4) (i b c y x : ℕ) :
    ((theano_split_mask mask mask_idx image).2.1.val i b c y x
      = ((theano_split_mask mask mask_idx image).1.val i b c y x) ^ 2) ∧
    (mask_idx.val b c y x ≠ mask.getD i 0 →
      (theano_split_mask mask mask_idx image).1.val i b c y x = 0 ∧
      (theano_split_mask mask mask_idx image).2.1.val i b c y x = 0) := by
  constructor
  · rfl
  · intro hne
    have hm : ¬(maskEq mask_idx (mask.getD i 0) b c y x = true) := by
      intro hmk
      exact hne ((maskEq_iff _ _ _ _ _ _).mp hmk).2.2.2.2
    constructor
    · show (if maskEq mask_idx (mask.getD i 0) b c y x then image.val b c y x
        else 0) = 0
      rw [if_neg hm]
    · show ((if maskEq mask_idx (mask.getD i 0) b c y x then image.val b c y x
        else 0) ^ 2) = 0
      rw [if_neg hm]
      norm_num

/-- Witness for claim C10: the relation at position (3, 3) of the
concrete scenario, which does not belong to class A. -/
theorem squares_and_masking_of_reference_witness :
    ((theano_split_mask exMask exLabel exImage).2.1.val 0 0 0 3 3
      = ((theano_split_mask exMask exLabel exImage).1.val 0 0 0 3 3) ^ 2) ∧
    exLabel.val 0 0 3 3 ≠ exMask.getD 0 0 ∧
    (theano_split_mask exMask exLabel exImage).1.val 0 0 0 3 3 = 0 ∧
    (theano_split_mask exMask exLabel exImage).2.1.val 0 0 0 3 3 = 0 := by
  have hne : exLabel.val 0 0 3 3 ≠ exMask.getD 0 0 := by decide
  have h := squares_and_masking_of_reference exMask exLabel exImage 0 0 0 3 3
  exact ⟨h.1, hne, (h.2 hne).1, (h.2 hne).2⟩

end MaskLoss
